import Mathlib

/-!
Verification of the Nairobi schools / population data-wrangling pipeline.

The tabular pipeline of `data_wrangling.py` and `visualize_completion_rates.py`
is embedded shallowly: a dataframe is a list of typed rows, numeric (float)
columns are rationals, numeric-as-text cells are a `Cell` sum type, and the
fallible `astype(float)` cast returns an `Option`.  Chart layout code is out of
scope; only the data transformations feeding the charts are modelled.
-/

/-- A cell of a population column that pandas may hold either as text
(object dtype, e.g. "1,086,213") or as a number. -/
inductive Cell where
  | str (s : String)
  | num (q : ℚ)
deriving DecidableEq, Repr

/-- One record of `kenya_primary_schools.csv`, restricted to the columns the
pipeline reads: `Province`, `Level_`, `Division`, `FID`, `TotalEnrol`,
`TotalBoys`, `TotalGirls`, `No_Classrm`, `TeachersTo`, `Latitude`,
`Longitude`. -/
structure SchoolRow where
  Province : String
  Level_ : String
  Division : String
  FID : Nat
  TotalEnrol : ℚ
  TotalBoys : ℚ
  TotalGirls : ℚ
  No_Classrm : ℚ
  TeachersTo : ℚ
  Latitude : ℚ
  Longitude : ℚ
deriving DecidableEq, Repr

/-- One record of the population CSV, restricted to the columns the pipeline
reads: the `County/ Sub-County` key, `Total*`, and the four
school-attendance-status columns. -/
structure PopRow where
  subcounty : String
  total : Cell
  atSchool : Cell
  leftAfter : Cell
  leftBefore : Cell
  neverBeen : Cell
deriving DecidableEq, Repr

/-- `subset_by_province` (data_wrangling.py line 51): `df[df[province_col] == province]`
with the default column `Province`. -/
def subset_by_province (df : List SchoolRow) (province : String) : List SchoolRow :=
  df.filter (fun r => r.Province == province)

/-- `subset_by_level` (data_wrangling.py line 66): `df[df[level_col] == level]`
with the default column `Level_`. -/
def subset_by_level (df : List SchoolRow) (level : String) : List SchoolRow :=
  df.filter (fun r => r.Level_ == level)

/-- `get_nairobi_subcounties` (data_wrangling.py lines 77-96). -/
def get_nairobi_subcounties : List String :=
  ["NAIROBI CITY",
   "WESTLANDS",
   "DAGORETTI NORTH",
   "DAGORETTI SOUTH",
   "LANG\x27ATA",
   "KIBRA",
   "ROYSAMBU",
   "KASARANI",
   "RUARAKA",
   "EMBAKASI NORTH",
   "EMBAKASI CENTRAL",
   "EMBAKASI EAST",
   "EMBAKASI WEST",
   "EMBAKASI SOUTH",
   "MAKADARA",
   "KAMUKUNJI",
   "STAREHE",
   "MATHARE"]

/-- `subset_by_subcounties` (data_wrangling.py line 111):
`df[df[subcounty_col].isin(subcounties)]` with the default column
`County/ Sub-County`. -/
def subset_by_subcounties (df : List PopRow) (subcounties : List String) : List PopRow :=
  df.filter (fun r => subcounties.contains r.subcounty)

/-- The alias table of `normalize_division_name` (data_wrangling.py lines 124-126). -/
def name_mapping : List (String × String) :=
  [("KIBERA", "KIBRA")]

/-- `normalize_division_name` (data_wrangling.py line 127):
`name_mapping.get(division, division)`. -/
def normalize_division_name (division : String) : String :=
  (List.lookup division name_mapping).getD division

/-- The value of the `Normalized_Division` column for a school row
(data_wrangling.py line 147). -/
def normKey (r : SchoolRow) : String :=
  normalize_division_name r.Division

/-- Boolean lexicographic order on character lists, standing for Python's
string order used by `groupby`'s key sort. -/
def charListLe : List Char → List Char → Bool
  | [], _ => true
  | _ :: _, [] => false
  | a :: as, b :: bs => if a = b then charListLe as bs else decide (a < b)

/-- Boolean string order for the `groupby` key sort. -/
def strLe (a b : String) : Bool :=
  charListLe a.data b.data

/-- Insert into a `strLe`-sorted list (helper of `sortKeys`). -/
def insertKey (a : String) : List String → List String
  | [] => [a]
  | b :: t => if strLe a b then a :: b :: t else b :: insertKey a t

/-- Insertion sort by `strLe`: pandas `groupby` returns its group keys in
sorted order. -/
def sortKeys : List String → List String
  | [] => []
  | a :: t => insertKey a (sortKeys t)

/-- The distinct normalized-division keys of the `groupby` on
`Normalized_Division` (data_wrangling.py line 150), in pandas' sorted key
order. -/
def aggKeys (df : List SchoolRow) : List String :=
  sortKeys (df.map normKey).dedup

/-- The group of school rows whose normalized division equals `k`. -/
def groupOf (df : List SchoolRow) (k : String) : List SchoolRow :=
  df.filter (fun r => normKey r == k)

/-- One row of the aggregated frame `school_stats` after the renaming at
data_wrangling.py lines 161-163: count of `FID`, sums of the enrollment,
classroom and teacher columns, means of `Latitude` and `Longitude`. -/
structure SchoolStats where
  Division : String
  School_Count : Nat
  Total_Enrollment : ℚ
  Total_Boys : ℚ
  Total_Girls : ℚ
  Total_Classrooms : ℚ
  Total_Teachers : ℚ
  Latitude : ℚ
  Longitude : ℚ
deriving DecidableEq, Repr

/-- The aggregate row for key `k` (data_wrangling.py lines 150-159):
`FID: count`, sums of `TotalEnrol`, `TotalBoys`, `TotalGirls`, `No_Classrm`,
`TeachersTo`, means of `Latitude`, `Longitude`. -/
def statsFor (df : List SchoolRow) (k : String) : SchoolStats :=
  let g := groupOf df k
  { Division := k
    School_Count := g.length
    Total_Enrollment := (g.map SchoolRow.TotalEnrol).sum
    Total_Boys := (g.map SchoolRow.TotalBoys).sum
    Total_Girls := (g.map SchoolRow.TotalGirls).sum
    Total_Classrooms := (g.map SchoolRow.No_Classrm).sum
    Total_Teachers := (g.map SchoolRow.TeachersTo).sum
    Latitude := (g.map SchoolRow.Latitude).sum / (g.length : ℚ)
    Longitude := (g.map SchoolRow.Longitude).sum / (g.length : ℚ) }

/-- The aggregated frame `school_stats` (data_wrangling.py lines 150-163):
one row per distinct normalized division, in sorted key order. -/
def school_statsOf (df : List SchoolRow) : List SchoolStats :=
  (aggKeys df).map (statsFor df)

/-- The `_merge` indicator column produced by `merge(..., indicator=True)`:
`both`, `left_only` (school side only) or `right_only` (population side
only). -/
inductive MergeTag where
  | both
  | left_only
  | right_only
deriving DecidableEq, Repr

/-- One row of the outer-merged frame: the school-stats columns (null when the
row came only from the population side), the population columns (null when the
row came only from the school side), and the `_merge` indicator. -/
structure MergedRow where
  school : Option SchoolStats
  pop : Option PopRow
  tag : MergeTag
deriving DecidableEq, Repr

/-- The population rows matching a left key `d` (`right_on` is the
`County/ Sub-County` column). -/
def matchesOf (pop : List PopRow) (d : String) : List PopRow :=
  pop.filter (fun p => p.subcounty == d)

/-- The population rows matching no left row, contributing `right_only`
output rows. -/
def unmatchedPop (left : List SchoolStats) (pop : List PopRow) : List PopRow :=
  pop.filter (fun p => !(left.any (fun s => s.Division == p.subcounty)))

/-- The output rows contributed by one aggregated school row under the outer
merge: one joined row per matching population row, or a single row with null
population columns when nothing matches. -/
def leftRows (pop : List PopRow) (s : SchoolStats) : List MergedRow :=
  if (matchesOf pop s.Division).isEmpty
  then [{ school := some s, pop := none, tag := MergeTag.left_only }]
  else (matchesOf pop s.Division).map
    fun p => { school := some s, pop := some p, tag := MergeTag.both }

/-- `school_stats.merge(pop_df, left_on='Division', right_on=pop_subcounty_col,
how='outer', indicator=True)` (data_wrangling.py lines 166-172): each left row
is paired with every matching population row (or kept alone with null
population columns), and every unmatched population row is kept with null
school columns. -/
def mergeOuter (left : List SchoolStats) (pop : List PopRow) : List MergedRow :=
  left.flatMap (leftRows pop)
  ++ (unmatchedPop left pop).map
      (fun p => { school := none, pop := some p, tag := MergeTag.right_only })

/-- `merge_schools_population` (data_wrangling.py lines 130-174): normalize the
division names, aggregate by normalized division, then outer-merge with the
population frame. -/
def merge_schools_population (school_df : List SchoolRow) (pop_df : List PopRow) :
    List MergedRow :=
  mergeOuter (school_statsOf school_df) pop_df

/-- `series.str.replace(',', '')` applied to one cell's text
(visualize_completion_rates.py line 9): every comma is removed. -/
def stripCommas (s : String) : String :=
  String.mk (s.data.filter (fun c => c ≠ ','))

/-- Value of a digit string (helper of `castFloat`). -/
def digitsToNat (l : List Char) : Nat :=
  l.foldl (fun a c => a * 10 + (c.toNat - 48)) 0

/-- `astype(float)` on one cell's text: the columns cleaned by this pipeline
hold nonnegative integer literals, so the cast succeeds exactly on nonempty
all-digit strings and fails (raises) otherwise. -/
def castFloat (s : String) : Option ℚ :=
  if !s.data.isEmpty && s.data.all Char.isDigit then some ((digitsToNat s.data : Nat) : ℚ)
  else none

/-- `clean_numeric` (visualize_completion_rates.py line 9) on one cell: a text
cell (object dtype) has its commas stripped and is cast to float; a numeric
cell passes through unchanged. -/
def clean_numeric : Cell → Option ℚ
  | Cell.str s => castFloat (stripCommas s)
  | Cell.num q => some q

/-- One row of the frame returned by `calculate_completion_metrics`: the
school-stats columns of a matched row, the five population columns after
`clean_numeric`, and the added `Completed_Rate` column. -/
structure CMRow where
  Division : String
  School_Count : Nat
  Total_Enrollment : ℚ
  Total_Pop : ℚ
  At_School : ℚ
  Left_After : ℚ
  Left_Before : ℚ
  Never_Been : ℚ
  Completed_Rate : ℚ
deriving DecidableEq, Repr

/-- The cleaning and `Completed_Rate` computation of
`calculate_completion_metrics` (visualize_completion_rates.py lines 13-15) on
one matched row: `clean_numeric` each population column, then
`Completed_Rate = Left After Completion / Total* * 100`.  A row of the matched
subset always carries both sides, so the catch-all arm is unreachable. -/
def cleanMatchedRow (r : MergedRow) : Option CMRow :=
  match r.school, r.pop with
  | some s, some p =>
    (clean_numeric p.total).bind fun tot =>
    (clean_numeric p.atSchool).bind fun atS =>
    (clean_numeric p.leftAfter).bind fun lA =>
    (clean_numeric p.leftBefore).bind fun lB =>
    (clean_numeric p.neverBeen).map fun nB =>
      { Division := s.Division
        School_Count := s.School_Count
        Total_Enrollment := s.Total_Enrollment
        Total_Pop := tot
        At_School := atS
        Left_After := lA
        Left_Before := lB
        Never_Been := nB
        Completed_Rate := lA / tot * 100 }
  | _, _ => none

/-- Row-by-row cleaning loop (columnwise `astype` in the source; elementwise
here, which agrees cell by cell). -/
def cleanRows : List MergedRow → Option (List CMRow)
  | [] => some []
  | r :: t => (cleanMatchedRow r).bind fun c => (cleanRows t).map fun cs => c :: cs

/-- `calculate_completion_metrics` (visualize_completion_rates.py lines 11-16):
keep the rows with `_merge == 'both'`, clean the population columns, add
`Completed_Rate`. -/
def calculate_completion_metrics (merged_df : List MergedRow) : Option (List CMRow) :=
  cleanRows (merged_df.filter (fun r => r.tag == MergeTag.both))

/-- One row of the derived columns that `create_schools_per_capita_charts`
adds before plotting. -/
structure PCRow where
  Division : String
  Total_Pop : ℚ
  Schools_per_10k : ℚ
  Students_per_School : ℚ
  Completed_Rate : ℚ
deriving DecidableEq, Repr

/-- The metric derivation of `create_schools_per_capita_charts`
(visualize_completion_rates.py lines 47-49): on the already-cleaned metrics
frame, `clean_numeric` is the identity (the columns are numeric), and
`Schools_per_10k = School_Count / Total_Pop * 10000`,
`Students_per_School = Total_Enrollment / School_Count`,
`Completed_Rate = Left After Completion / Total_Pop * 100`.
The chart layout that follows is out of scope. -/
def create_schools_per_capita_metrics (metrics_df : List CMRow) : List PCRow :=
  metrics_df.map fun r =>
    { Division := r.Division
      Total_Pop := r.Total_Pop
      Schools_per_10k := (r.School_Count : ℚ) / r.Total_Pop * 10000
      Students_per_School := r.Total_Enrollment / (r.School_Count : ℚ)
      Completed_Rate := r.Left_After / r.Total_Pop * 100 }

/-- A school dataframe object as the store sees it: its rows plus the
`Normalized_Division` column once it has been assigned. -/
structure SchoolTable where
  rows : List SchoolRow
  normCol : Option (List String)
deriving DecidableEq, Repr

/-- A heap of school dataframe objects, keyed by reference, to make the
copy-then-mutate behaviour of `merge_schools_population` explicit. -/
def Store : Type :=
  List (Nat × SchoolTable)

/-- Dereference. -/
def storeGet (σ : Store) (r : Nat) : Option SchoolTable :=
  (σ.find? (fun p => p.1 == r)).map Prod.snd

/-- Dereference with a default (used only at references known to be bound). -/
def storeGetD (σ : Store) (r : Nat) : SchoolTable :=
  (storeGet σ r).getD { rows := [], normCol := none }

/-- In-place update of the object a reference points to. -/
def storeSet (σ : Store) (r : Nat) (t : SchoolTable) : Store :=
  σ.map (fun p => if p.1 == r then (r, t) else p)

/-- A reference unused by the store (for `DataFrame.copy`). -/
def alloc (σ : Store) : Nat :=
  ((σ.map Prod.fst).foldr max 0) + 1

/-- `school_df['Normalized_Division'] = school_df[school_division_col].apply(normalize_division_name)`
(data_wrangling.py line 147) as a mutation of one table object. -/
def addNormCol (t : SchoolTable) : SchoolTable :=
  { t with normCol := some (t.rows.map normKey) }

/-- `merge_schools_population` with its heap effects explicit
(data_wrangling.py lines 146-174): `school_df = school_df.copy()` binds the
local name to a fresh object, the `Normalized_Division` assignment mutates
that fresh object, and the aggregation and merge read the mutated copy.
The population frame is only read, so no store of population objects is
needed; an unbound reference would be a Python error and returns the store
unchanged. -/
def merge_schools_population_st (σ : Store) (schoolRef : Nat) (pop_df : List PopRow) :
    Store × List MergedRow :=
  match storeGet σ schoolRef with
  | none => (σ, [])
  | some t =>
    let r := alloc σ
    let σ₁ := (r, t) :: σ
    let σ₂ := storeSet σ₁ r (addNormCol (storeGetD σ₁ r))
    (σ₂, mergeOuter (school_statsOf (storeGetD σ₂ r).rows) pop_df)

/-!
## General counting and permutation lemmas
-/

theorem sum_map_add_nat {α : Type} (f g : α → Nat) (l : List α) :
    (l.map (fun x => f x + g x)).sum = (l.map f).sum + (l.map g).sum := by
  induction l with
  | nil => simp
  | cons a t ih => simp [ih]; omega

theorem countP_eq_sum_map {α : Type} (p : α → Bool) (l : List α) :
    l.countP p = (l.map (fun a => if p a then 1 else 0)).sum := by
  induction l with
  | nil => simp
  | cons a t ih =>
    by_cases h : p a
    · simp [List.countP_cons, h, ih]
      omega
    · simp [List.countP_cons, h, ih]

theorem sum_countP_swap {α β : Type} (l₁ : List α) (l₂ : List β) (R : α → β → Bool) :
    (l₁.map fun a => l₂.countP (R a)).sum = (l₂.map fun b => l₁.countP (fun a => R a b)).sum := by
  induction l₁ with
  | nil => simp
  | cons a t ih =>
    simp only [List.map_cons, List.sum_cons, ih, List.countP_cons]
    rw [show (fun b => List.countP (fun a => R a b) t + if R a b then 1 else 0)
          = (fun b => (fun b => List.countP (fun a => R a b) t) b + (fun b => if R a b then 1 else 0) b) from rfl,
        sum_map_add_nat, countP_eq_sum_map]
    omega

theorem countP_add_countP_not {α : Type} (p : α → Bool) (l : List α) :
    l.countP p + l.countP (fun a => !(p a)) = l.length := by
  induction l with
  | nil => simp
  | cons a t ih =>
    by_cases h : p a <;> simp [List.countP_cons, h] <;> omega

theorem matchesOf_length (pop : List PopRow) (d : String) :
    (matchesOf pop d).length = pop.countP (fun p => p.subcounty == d) :=
  (List.countP_eq_length_filter _ _).symm

/-- Whether some left key matches the population row `p`. -/
def hasMatch (left : List SchoolStats) (p : PopRow) : Bool :=
  left.any (fun s => s.Division == p.subcounty)

theorem hasMatch_eq_mem (left : List SchoolStats) (p : PopRow) :
    hasMatch left p = decide (p.subcounty ∈ left.map SchoolStats.Division) := by
  rw [Bool.eq_iff_iff]
  simp only [hasMatch, List.any_eq_true, decide_eq_true_eq, List.mem_map, beq_iff_eq]

theorem leftRows_length (pop : List PopRow) (s : SchoolStats) :
    (leftRows pop s).length
      = (if (matchesOf pop s.Division).isEmpty then 1 else 0)
        + (matchesOf pop s.Division).length := by
  by_cases h : (matchesOf pop s.Division).isEmpty
  · simp [leftRows, h, List.isEmpty_iff.mp h]
  · simp [leftRows, h]

theorem sum_matches_eq {left : List SchoolStats} (pop : List PopRow)
    (hnd : (left.map SchoolStats.Division).Nodup) :
    (left.map fun s => (matchesOf pop s.Division).length).sum
      = pop.countP (hasMatch left) := by
  have h1 : (left.map fun s => (matchesOf pop s.Division).length).sum
      = (left.map fun s => pop.countP (fun p => p.subcounty == s.Division)).sum := by
    simp [matchesOf_length]
  rw [h1, sum_countP_swap]
  have h2 : ∀ p : PopRow,
      left.countP (fun s => p.subcounty == s.Division)
        = if p.subcounty ∈ left.map SchoolStats.Division then 1 else 0 := by
    intro p
    have hc : left.countP (fun s => p.subcounty == s.Division)
        = (left.map SchoolStats.Division).count p.subcounty := by
      rw [List.count, List.countP_map]
      congr 1
      funext s
      exact Bool.beq_comm
    rw [hc]
    by_cases h : p.subcounty ∈ left.map SchoolStats.Division
    · have hle := List.nodup_iff_count_le_one.mp hnd p.subcounty
      have hpos := List.count_pos_iff.mpr h
      simp only [h, if_true]
      omega
    · simp [List.count_eq_zero.mpr h, h]
  calc (pop.map fun p => left.countP (fun s => p.subcounty == s.Division)).sum
      = (pop.map fun p => if p.subcounty ∈ left.map SchoolStats.Division then 1 else 0).sum := by
        congr 1; exact List.map_congr_left fun p _ => h2 p
    _ = pop.countP (hasMatch left) := by
        rw [countP_eq_sum_map]
        congr 1
        refine List.map_congr_left fun p _ => ?_
        rw [hasMatch_eq_mem]
        by_cases h : p.subcounty ∈ left.map SchoolStats.Division <;>
          simp [h, decide_eq_true, decide_eq_false]

theorem mergeOuter_length {left : List SchoolStats} (pop : List PopRow)
    (hnd : (left.map SchoolStats.Division).Nodup) :
    (mergeOuter left pop).length
      = left.countP (fun s => (matchesOf pop s.Division).isEmpty) + pop.length := by
  have heq : (left.map (List.length ∘ leftRows pop))
      = (left.map fun s => (if (matchesOf pop s.Division).isEmpty then 1 else 0)
          + (matchesOf pop s.Division).length) :=
    List.map_congr_left fun s _ => leftRows_length pop s
  have hpart2 : ((unmatchedPop left pop).map
      (fun p => ({ school := none, pop := some p, tag := MergeTag.right_only } : MergedRow))).length
      = pop.countP (fun p => !(hasMatch left p)) := by
    simp [unmatchedPop, hasMatch, List.countP_eq_length_filter]
  rw [mergeOuter, List.length_append, List.length_flatMap, heq, sum_map_add_nat,
    ← countP_eq_sum_map, hpart2, sum_matches_eq pop hnd]
  have := countP_add_countP_not (hasMatch left) pop
  omega

theorem insertKey_perm (a : String) (l : List String) : (insertKey a l).Perm (a :: l) := by
  induction l with
  | nil => simp [insertKey]
  | cons b t ih =>
    by_cases h : strLe a b
    · simp [insertKey, h]
    · simp only [insertKey, h, if_false, Bool.false_eq_true]
      exact ((ih.cons b).trans (List.Perm.swap a b t))

theorem sortKeys_perm (l : List String) : (sortKeys l).Perm l := by
  induction l with
  | nil => simp [sortKeys]
  | cons a t ih => exact (insertKey_perm a (sortKeys t)).trans (ih.cons a)

theorem aggKeys_nodup (df : List SchoolRow) : (aggKeys df).Nodup :=
  ((sortKeys_perm _).nodup_iff).mpr (List.nodup_dedup _)

theorem mem_aggKeys {k : String} {df : List SchoolRow} :
    k ∈ aggKeys df ↔ k ∈ df.map normKey := by
  rw [aggKeys, (sortKeys_perm _).mem_iff, List.mem_dedup]

theorem statsFor_Division (df : List SchoolRow) (k : String) :
    (statsFor df k).Division = k := rfl

theorem school_statsOf_divisions (df : List SchoolRow) :
    (school_statsOf df).map SchoolStats.Division = aggKeys df := by
  rw [school_statsOf, List.map_map]
  have : SchoolStats.Division ∘ statsFor df = id := by
    funext k; rfl
  rw [this, List.map_id]

theorem school_statsOf_key_nodup (df : List SchoolRow) :
    ((school_statsOf df).map SchoolStats.Division).Nodup := by
  rw [school_statsOf_divisions]; exact aggKeys_nodup df

theorem countP_nonempty_le_sum_matches (left : List SchoolStats) (pop : List PopRow) :
    left.countP (fun s => !(matchesOf pop s.Division).isEmpty)
      ≤ (left.map fun s => (matchesOf pop s.Division).length).sum := by
  rw [countP_eq_sum_map]
  refine List.sum_le_sum fun s _ => ?_
  by_cases h : (matchesOf pop s.Division).isEmpty
  · simp [h]
  · have : (matchesOf pop s.Division).length ≠ 0 := by
      simpa [List.isEmpty_iff, List.length_eq_zero] using h
    simp only [h, Bool.not_false, if_true]
    omega

theorem tag_partition (l : List MergedRow) :
    l.countP (fun r => r.tag == MergeTag.both)
      + l.countP (fun r => r.tag == MergeTag.left_only)
      + l.countP (fun r => r.tag == MergeTag.right_only) = l.length := by
  induction l with
  | nil => simp
  | cons r t ih => cases h : r.tag <;> simp [List.countP_cons, h] <;> omega

theorem mergeOuter_left_total {left : List SchoolStats} {pop : List PopRow} :
    ∀ s ∈ left, ∃ r ∈ mergeOuter left pop, r.school = some s := by
  intro s hs
  by_cases h : (matchesOf pop s.Division).isEmpty
  · refine ⟨{ school := some s, pop := none, tag := MergeTag.left_only }, ?_, rfl⟩
    exact List.mem_append_left _ (List.mem_flatMap.mpr ⟨s, hs, by simp [leftRows, h]⟩)
  · obtain ⟨p, hp⟩ := List.exists_mem_of_ne_nil _ (by simpa [List.isEmpty_iff] using h)
    refine ⟨{ school := some s, pop := some p, tag := MergeTag.both }, ?_, rfl⟩
    refine List.mem_append_left _ (List.mem_flatMap.mpr ⟨s, hs, ?_⟩)
    simp only [leftRows, h, if_false, Bool.false_eq_true]
    exact List.mem_map.mpr ⟨p, hp, rfl⟩

theorem mergeOuter_right_total {left : List SchoolStats} {pop : List PopRow} :
    ∀ p ∈ pop, ∃ r ∈ mergeOuter left pop, r.pop = some p := by
  intro p hp
  by_cases h : hasMatch left p
  · obtain ⟨s, hs, hd⟩ := List.any_eq_true.mp h
    have hpm : p ∈ matchesOf pop s.Division :=
      List.mem_filter.mpr ⟨hp, by rw [Bool.beq_comm]; exact hd⟩
    have hne : (matchesOf pop s.Division).isEmpty = false := by
      rcases hm : (matchesOf pop s.Division) with _ | ⟨q, t⟩
      · rw [hm] at hpm; simp at hpm
      · simp
    refine ⟨{ school := some s, pop := some p, tag := MergeTag.both }, ?_, rfl⟩
    refine List.mem_append_left _ (List.mem_flatMap.mpr ⟨s, hs, ?_⟩)
    simp only [leftRows, hne, if_false, Bool.false_eq_true]
    exact List.mem_map.mpr ⟨p, hpm, rfl⟩
  · refine ⟨{ school := none, pop := some p, tag := MergeTag.right_only }, ?_, rfl⟩
    refine List.mem_append_right _ ?_
    refine List.mem_map.mpr ⟨p, ?_, rfl⟩
    exact List.mem_filter.mpr ⟨hp, by simp only [hasMatch] at h; simp [h]⟩

theorem mergeOuter_row_cases {left : List SchoolStats} {pop : List PopRow} :
    ∀ r ∈ mergeOuter left pop,
      (r.tag = MergeTag.both →
        ∃ s ∈ left, ∃ p ∈ pop, r.school = some s ∧ r.pop = some p ∧ p.subcounty = s.Division)
      ∧ (r.tag = MergeTag.left_only →
        ∃ s ∈ left, r.school = some s ∧ r.pop = none ∧ ∀ p ∈ pop, p.subcounty ≠ s.Division)
      ∧ (r.tag = MergeTag.right_only →
        ∃ p ∈ pop, r.school = none ∧ r.pop = some p ∧ ∀ s ∈ left, s.Division ≠ p.subcounty) := by
  intro r hr
  rcases List.mem_append.mp hr with hl | hrr
  · obtain ⟨s, hs, hr'⟩ := List.mem_flatMap.mp hl
    by_cases h : (matchesOf pop s.Division).isEmpty
    · simp only [leftRows, h, if_true, List.mem_singleton] at hr'
      subst hr'
      refine ⟨by simp, fun _ => ⟨s, hs, rfl, rfl, ?_⟩, by simp⟩
      intro p hp hkey
      have : p ∈ matchesOf pop s.Division := List.mem_filter.mpr ⟨hp, by simp [hkey]⟩
      rw [List.isEmpty_iff.mp h] at this
      simp at this
    · simp only [leftRows, h, if_false, Bool.false_eq_true] at hr'
      obtain ⟨p, hpm, hr''⟩ := List.mem_map.mp hr'
      subst hr''
      have hpp := List.mem_filter.mp hpm
      refine ⟨fun _ => ⟨s, hs, p, hpp.1, rfl, rfl, by simpa using hpp.2⟩, by simp, by simp⟩
  · obtain ⟨p, hpm, hr''⟩ := List.mem_map.mp hrr
    subst hr''
    have hpp := List.mem_filter.mp hpm
    refine ⟨by simp, by simp, fun _ => ⟨p, hpp.1, rfl, rfl, ?_⟩⟩
    intro s hs
    have hany := hpp.2
    simp only [Bool.not_eq_eq_eq_not, Bool.not_true, List.any_eq_false] at hany
    have := hany s hs
    simpa using this

theorem groupOf_length (df : List SchoolRow) (k : String) :
    (groupOf df k).length = df.countP (fun r => normKey r == k) :=
  (List.countP_eq_length_filter _ _).symm

theorem sum_school_counts (df : List SchoolRow) :
    ((school_statsOf df).map SchoolStats.School_Count).sum = df.length := by
  have h1 : (school_statsOf df).map SchoolStats.School_Count
      = (aggKeys df).map fun k => df.countP (fun r => normKey r == k) := by
    rw [school_statsOf, List.map_map]
    exact List.map_congr_left fun k _ => groupOf_length df k
  rw [h1, sum_countP_swap]
  have h2 : ∀ r : SchoolRow, r ∈ df →
      (aggKeys df).countP (fun k => normKey r == k) = 1 := by
    intro r hr
    have hc : (aggKeys df).countP (fun k => normKey r == k)
        = (aggKeys df).count (normKey r) := by
      rw [List.count]
      congr 1
      funext k
      exact Bool.beq_comm
    have hmem : normKey r ∈ aggKeys df :=
      mem_aggKeys.mpr (List.mem_map.mpr ⟨r, hr, rfl⟩)
    have hle := List.nodup_iff_count_le_one.mp (aggKeys_nodup df) (normKey r)
    have hpos := List.count_pos_iff.mpr hmem
    omega
  calc (df.map fun r => (aggKeys df).countP (fun k => normKey r == k)).sum
      = (df.map fun _ => 1).sum := by
        congr 1; exact List.map_congr_left fun r hr => h2 r hr
    _ = df.length := by simp

theorem countP_flatMap {α β : Type} (P : β → Bool) (f : α → List β) (l : List α) :
    (l.flatMap f).countP P = (l.map fun a => (f a).countP P).sum := by
  induction l with
  | nil => simp
  | cons a t ih => simp [List.flatMap_cons, List.countP_append, ih]

/-- Whether a merged row's population component carries subcounty key `k`. -/
def popKeyIs (k : String) (r : MergedRow) : Bool :=
  match r.pop with
  | some p => p.subcounty == k
  | none => false

theorem sum_if_key (t : List SchoolStats) (k : String) (c : Nat) :
    (t.map fun s => if s.Division == k then c else 0).sum
      = t.countP (fun s => s.Division == k) * c := by
  induction t with
  | nil => simp
  | cons s t ih =>
    simp only [List.map_cons, List.sum_cons, List.countP_cons, ih]
    by_cases hd : (s.Division == k) = true
    · simp only [hd, if_true]
      rw [Nat.add_mul, Nat.one_mul]
      omega
    · simp [hd]

theorem mergeOuter_pop_key_once {left : List SchoolStats} (pop : List PopRow) (k : String)
    (hnd : (left.map SchoolStats.Division).Nodup)
    (hpop : (pop.map PopRow.subcounty).Nodup) :
    (mergeOuter left pop).countP (popKeyIs k) ≤ 1 := by
  have hpk : pop.countP (fun p => p.subcounty == k) ≤ 1 := by
    have hc : pop.countP (fun p => p.subcounty == k)
        = (pop.map PopRow.subcounty).count k := by
      rw [List.count, List.countP_map]; rfl
    rw [hc]
    exact List.nodup_iff_count_le_one.mp hpop k
  have hterm : ∀ s ∈ left, (leftRows pop s).countP (popKeyIs k)
      ≤ if s.Division == k then pop.countP (fun p => p.subcounty == k) else 0 := by
    intro s _
    by_cases h : (matchesOf pop s.Division).isEmpty
    · have h0 : (popKeyIs k { school := some s, pop := none, tag := MergeTag.left_only }) = false := rfl
      simp [leftRows, h, List.countP_cons, h0]
    · simp only [leftRows, h, if_false, Bool.false_eq_true]
      rw [List.countP_map]
      show (matchesOf pop s.Division).countP (fun p => p.subcounty == k) ≤ _
      rw [matchesOf, List.countP_filter]
      by_cases hd : (s.Division == k) = true
      · have hkd : s.Division = k := by simpa using hd
        simp only [hd, if_true]
        refine List.countP_mono_left fun p _ hp => ?_
        subst hkd
        exact (Bool.and_elim_left hp)
      · have hkd : s.Division ≠ k := by simpa using hd
        simp only [hd, Bool.false_eq_true, if_false]
        rw [Nat.le_zero, List.countP_eq_zero]
        intro p _
        simp only [Bool.and_eq_true, beq_iff_eq]
        rintro ⟨h1, h2⟩
        exact hkd (h2 ▸ h1)
  have hpart1 : (left.flatMap (leftRows pop)).countP (popKeyIs k)
      ≤ left.countP (fun s => s.Division == k) * pop.countP (fun p => p.subcounty == k) := by
    rw [countP_flatMap, ← sum_if_key left k (pop.countP (fun p => p.subcounty == k))]
    exact List.sum_le_sum hterm
  have hlk : left.countP (fun s => s.Division == k) ≤ 1 := by
    have hc : left.countP (fun s => s.Division == k)
        = (left.map SchoolStats.Division).count k := by
      rw [List.count, List.countP_map]; rfl
    rw [hc]
    exact List.nodup_iff_count_le_one.mp hnd k
  have hpart2 : ((unmatchedPop left pop).map
      (fun p => ({ school := none, pop := some p, tag := MergeTag.right_only } : MergedRow))).countP
        (popKeyIs k)
      = pop.countP (fun p => (p.subcounty == k) && !(hasMatch left p)) := by
    rw [List.countP_map, unmatchedPop, List.countP_filter]
    rfl
  rw [mergeOuter, List.countP_append, hpart2]
  by_cases hk : k ∈ left.map SchoolStats.Division
  · have h2 : pop.countP (fun p => (p.subcounty == k) && !(hasMatch left p)) = 0 := by
      rw [List.countP_eq_zero]
      intro p _
      simp only [Bool.and_eq_true, beq_iff_eq, Bool.not_eq_eq_eq_not, Bool.not_true]
      rintro ⟨h1, h2⟩
      rw [hasMatch_eq_mem, h1] at h2
      simp [hk] at h2
    have hb : left.countP (fun s => s.Division == k)
        * pop.countP (fun p => p.subcounty == k) ≤ 1 := by
      simpa using Nat.mul_le_mul hlk hpk
    omega
  · have h1 : left.countP (fun s => s.Division == k) = 0 := by
      rw [List.countP_eq_zero]
      intro s hs
      simp only [beq_iff_eq]
      intro hd
      exact hk (List.mem_map.mpr ⟨s, hs, hd⟩)
    have hc0 : (left.flatMap (leftRows pop)).countP (popKeyIs k) = 0 :=
      Nat.le_zero.mp (by simpa [h1] using hpart1)
    have h2 : pop.countP (fun p => (p.subcounty == k) && !(hasMatch left p))
        ≤ pop.countP (fun p => p.subcounty == k) :=
      List.countP_mono_left fun p _ hp => Bool.and_elim_left hp
    omega

/-!
## The claims
-/

/-- Claim C7: `normalize_division_name` is a pure total function whose alias
table has exactly one entry; it maps "KIBERA" to "KIBRA" and every other
string to itself, and applying it twice equals applying it once. -/
theorem normalize_division_name_spec :
    name_mapping.length = 1
    ∧ normalize_division_name "KIBERA" = "KIBRA"
    ∧ (∀ s : String, s ≠ "KIBERA" → normalize_division_name s = s)
    ∧ (∀ s : String,
        normalize_division_name (normalize_division_name s) = normalize_division_name s) := by
  have hother : ∀ s : String, s ≠ "KIBERA" → normalize_division_name s = s := by
    intro s hs
    have hb : (s == "KIBERA") = false := beq_eq_false_iff_ne.mpr hs
    simp [normalize_division_name, name_mapping, List.lookup, hb]
  refine ⟨rfl, by decide, hother, ?_⟩
  intro s
  by_cases h : s = "KIBERA"
  · subst h
    decide
  · rw [hother s h]
    exact hother s h

/-- Claim C2: the merge is a full outer join on the division key: every
aggregated school row and every population row appears in the output, the
columns of the missing side are null in unmatched rows, and the provenance
tag correctly reflects which side or sides contributed each row. -/
theorem merge_full_outer_join (school_df : List SchoolRow) (pop_df : List PopRow) :
    (∀ s ∈ school_statsOf school_df,
      ∃ r ∈ merge_schools_population school_df pop_df, r.school = some s)
    ∧ (∀ p ∈ pop_df,
      ∃ r ∈ merge_schools_population school_df pop_df, r.pop = some p)
    ∧ (∀ r ∈ merge_schools_population school_df pop_df,
        (r.tag = MergeTag.both →
          ∃ s ∈ school_statsOf school_df, ∃ p ∈ pop_df,
            r.school = some s ∧ r.pop = some p ∧ p.subcounty = s.Division)
        ∧ (r.tag = MergeTag.left_only →
          ∃ s ∈ school_statsOf school_df,
            r.school = some s ∧ r.pop = none ∧ ∀ p ∈ pop_df, p.subcounty ≠ s.Division)
        ∧ (r.tag = MergeTag.right_only →
          ∃ p ∈ pop_df,
            r.school = none ∧ r.pop = some p
              ∧ ∀ s ∈ school_statsOf school_df, s.Division ≠ p.subcounty)) :=
  ⟨mergeOuter_left_total, mergeOuter_right_total, mergeOuter_row_cases⟩

/-- Claim C3: the merged output has between max(left rows, right rows) and
left rows + right rows rows, and the three provenance tags partition the
output: the three tag counts sum to the output length and each row carries
exactly one tag. -/
theorem merge_bounds_partition (school_df : List SchoolRow) (pop_df : List PopRow) :
    (max (school_statsOf school_df).length pop_df.length
      ≤ (merge_schools_population school_df pop_df).length)
    ∧ ((merge_schools_population school_df pop_df).length
      ≤ (school_statsOf school_df).length + pop_df.length)
    ∧ ((merge_schools_population school_df pop_df).countP (fun r => r.tag == MergeTag.both)
        + (merge_schools_population school_df pop_df).countP (fun r => r.tag == MergeTag.left_only)
        + (merge_schools_population school_df pop_df).countP (fun r => r.tag == MergeTag.right_only)
        = (merge_schools_population school_df pop_df).length)
    ∧ (∀ r ∈ merge_schools_population school_df pop_df,
        (if r.tag = MergeTag.both then 1 else 0)
          + (if r.tag = MergeTag.left_only then 1 else 0)
          + (if r.tag = MergeTag.right_only then 1 else 0) = 1) := by
  have hnd := school_statsOf_key_nodup school_df
  have hlen := mergeOuter_length pop_df hnd
  have hsplit := countP_add_countP_not
    (fun s => (matchesOf pop_df s.Division).isEmpty) (school_statsOf school_df)
  have hle := countP_nonempty_le_sum_matches (school_statsOf school_df) pop_df
  have hsum := sum_matches_eq pop_df hnd
  have hcle : pop_df.countP (hasMatch (school_statsOf school_df)) ≤ pop_df.length :=
    List.countP_le_length _
  have hcle2 : (school_statsOf school_df).countP
      (fun s => (matchesOf pop_df s.Division).isEmpty) ≤ (school_statsOf school_df).length :=
    List.countP_le_length _
  refine ⟨?_, ?_, tag_partition _, ?_⟩
  · rw [Nat.max_le]
    constructor
    · rw [merge_schools_population, hlen]
      omega
    · rw [merge_schools_population, hlen]
      omega
  · rw [merge_schools_population, hlen]
    omega
  · intro r _
    cases h : r.tag <;> simp [h]

/-- Claim C4: the aggregation produces exactly one row per distinct normalized
division of the input, computing the record count, the column sums and the
coordinate means per division, and the per-division school counts sum to the
input row count. -/
theorem aggregate_one_row_per_division (df : List SchoolRow) :
    ((school_statsOf df).map SchoolStats.Division).Nodup
    ∧ (∀ k : String,
        k ∈ (school_statsOf df).map SchoolStats.Division ↔ k ∈ df.map normKey)
    ∧ ((school_statsOf df).map SchoolStats.School_Count).sum = df.length
    ∧ (∀ st ∈ school_statsOf df,
        st.School_Count = (groupOf df st.Division).length
        ∧ st.Total_Enrollment = ((groupOf df st.Division).map SchoolRow.TotalEnrol).sum
        ∧ st.Total_Boys = ((groupOf df st.Division).map SchoolRow.TotalBoys).sum
        ∧ st.Total_Girls = ((groupOf df st.Division).map SchoolRow.TotalGirls).sum
        ∧ st.Total_Classrooms = ((groupOf df st.Division).map SchoolRow.No_Classrm).sum
        ∧ st.Total_Teachers = ((groupOf df st.Division).map SchoolRow.TeachersTo).sum
        ∧ st.Latitude = ((groupOf df st.Division).map SchoolRow.Latitude).sum
            / ((groupOf df st.Division).length : ℚ)
        ∧ st.Longitude = ((groupOf df st.Division).map SchoolRow.Longitude).sum
            / ((groupOf df st.Division).length : ℚ)) := by
  refine ⟨school_statsOf_key_nodup df, ?_, sum_school_counts df, ?_⟩
  · intro k
    rw [school_statsOf_divisions]
    exact mem_aggKeys
  · intro st hst
    obtain ⟨k, _, rfl⟩ := List.mem_map.mp hst
    exact ⟨rfl, rfl, rfl, rfl, rfl, rfl, rfl, rfl⟩

/-- Claim C8: the canonical subcounty list has exactly 18 pairwise-distinct
entries, and whenever the population table has pairwise-distinct subcounty
keys, each key contributes at most one population row to the merged output. -/
theorem division_key_injective :
    get_nairobi_subcounties.length = 18
    ∧ get_nairobi_subcounties.Nodup
    ∧ (∀ (school_df : List SchoolRow) (pop_df : List PopRow) (k : String),
        (pop_df.map PopRow.subcounty).Nodup →
        (merge_schools_population school_df pop_df).countP (popKeyIs k) ≤ 1) := by
  refine ⟨rfl, by decide, ?_⟩
  intro school_df pop_df k hpop
  exact mergeOuter_pop_key_once pop_df k (school_statsOf_key_nodup school_df) hpop

theorem count_filter_ite {α : Type} [DecidableEq α] (p : α → Bool) (l : List α) (a : α) :
    (l.filter p).count a = if p a then l.count a else 0 := by
  by_cases h : p a
  · rw [if_pos h]
    exact List.count_filter h
  · rw [if_neg h, List.count_eq_zero]
    intro hmem
    exact h ((List.mem_filter.mp hmem).2)

/-- Claim C9: each subset operation returns exactly the input rows satisfying
its predicate, keeping their original order (a sublist with the exact
multiplicities), and the input table itself is untouched. -/
theorem subset_ops_exact (df : List SchoolRow) (pdf : List PopRow)
    (province level : String) (subs : List String) :
    (subset_by_province df province).Sublist df
    ∧ (∀ r : SchoolRow, r ∈ subset_by_province df province ↔ r ∈ df ∧ r.Province = province)
    ∧ (∀ r : SchoolRow, (subset_by_province df province).count r
        = if r.Province = province then df.count r else 0)
    ∧ (subset_by_level df level).Sublist df
    ∧ (∀ r : SchoolRow, r ∈ subset_by_level df level ↔ r ∈ df ∧ r.Level_ = level)
    ∧ (∀ r : SchoolRow, (subset_by_level df level).count r
        = if r.Level_ = level then df.count r else 0)
    ∧ (subset_by_subcounties pdf subs).Sublist pdf
    ∧ (∀ r : PopRow, r ∈ subset_by_subcounties pdf subs ↔ r ∈ pdf ∧ r.subcounty ∈ subs)
    ∧ (∀ r : PopRow, (subset_by_subcounties pdf subs).count r
        = if r.subcounty ∈ subs then pdf.count r else 0) := by
  refine ⟨List.filter_sublist df, ?_, ?_, List.filter_sublist df, ?_, ?_,
    List.filter_sublist pdf, ?_, ?_⟩
  · intro r
    simp [subset_by_province, List.mem_filter]
  · intro r
    rw [subset_by_province, count_filter_ite]
    by_cases h : r.Province = province
    · simp [h]
    · simp [h, beq_eq_false_iff_ne.mpr h]
  · intro r
    simp [subset_by_level, List.mem_filter]
  · intro r
    rw [subset_by_level, count_filter_ite]
    by_cases h : r.Level_ = level
    · simp [h]
    · simp [h, beq_eq_false_iff_ne.mpr h]
  · intro r
    simp [subset_by_subcounties, List.mem_filter]
  · intro r
    rw [subset_by_subcounties, count_filter_ite]
    by_cases h : r.subcounty ∈ subs
    · simp [h]
    · simp [h]

/-- A school record for the worked example: division `d`, id `i`, and fixed
values for the remaining columns. -/
def mkSchool (d : String) (i : Nat) : SchoolRow :=
  { Province := "NAIROBI"
    Level_ := "PRIMARY SCHOOL"
    Division := d
    FID := i
    TotalEnrol := 100
    TotalBoys := 50
    TotalGirls := 50
    No_Classrm := 10
    TeachersTo := 5
    Latitude := 1
    Longitude := 36 }

/-- The example school table: 5 rows with division "KIBERA" and 3 rows with
division "WESTLANDS". -/
def exSchool : List SchoolRow :=
  [mkSchool "KIBERA" 1, mkSchool "KIBERA" 2, mkSchool "KIBERA" 3,
   mkSchool "KIBERA" 4, mkSchool "KIBERA" 5,
   mkSchool "WESTLANDS" 6, mkSchool "WESTLANDS" 7, mkSchool "WESTLANDS" 8]

/-- The example population table: one "KIBRA" row (population 10000) and one
"WESTLANDS" row (population 8000). -/
def exPop : List PopRow :=
  [{ subcounty := "KIBRA"
     total := Cell.str "10,000"
     atSchool := Cell.str "4,000"
     leftAfter := Cell.str "3,000"
     leftBefore := Cell.str "2,000"
     neverBeen := Cell.str "1,000" },
   { subcounty := "WESTLANDS"
     total := Cell.str "8,000"
     atSchool := Cell.str "3,000"
     leftAfter := Cell.str "2,500"
     leftBefore := Cell.str "1,500"
     neverBeen := Cell.str "1,000" }]

/-- Claim C1: on the worked example, the merge yields the "KIBRA" row matched
with 5 aggregated schools (normalized from "KIBERA") and the "WESTLANDS" row
matched with 3 schools, both tagged matched-both. -/
theorem merge_example :
    aggKeys exSchool = ["KIBRA", "WESTLANDS"]
    ∧ (merge_schools_population exSchool exPop).length = 2
    ∧ ((merge_schools_population exSchool exPop).any fun r =>
        match r.school, r.pop with
        | some s, some p =>
          s.Division == "KIBRA" && s.School_Count == 5
            && p.subcounty == "KIBRA" && (r.tag == MergeTag.both)
        | _, _ => false) = true
    ∧ ((merge_schools_population exSchool exPop).any fun r =>
        match r.school, r.pop with
        | some s, some p =>
          s.Division == "WESTLANDS" && s.School_Count == 3
            && p.subcounty == "WESTLANDS" && (r.tag == MergeTag.both)
        | _, _ => false) = true
    ∧ ((merge_schools_population exSchool exPop).all
        fun r => r.tag == MergeTag.both) = true := by
  decide

theorem cleanRows_mem {l : List MergedRow} {out : List CMRow} (h : cleanRows l = some out) :
    ∀ c ∈ out, ∃ r ∈ l, cleanMatchedRow r = some c := by
  induction l generalizing out with
  | nil =>
    simp only [cleanRows, Option.some.injEq] at h
    subst h
    intro c hc
    simp at hc
  | cons r t ih =>
    simp only [cleanRows] at h
    cases hr : cleanMatchedRow r with
    | none => rw [hr] at h; simp at h
    | some c0 =>
      rw [hr] at h
      cases ht : cleanRows t with
      | none => rw [ht] at h; simp at h
      | some cs =>
        rw [ht] at h
        simp only [Option.some_bind, Option.map_some', Option.some.injEq] at h
        subst h
        intro c hc
        rcases List.mem_cons.mp hc with hc0 | hcs
        · exact ⟨r, List.mem_cons_self r t, hc0 ▸ hr⟩
        · obtain ⟨r', hr', hcr'⟩ := ih ht c hcs
          exact ⟨r', List.mem_cons_of_mem r hr', hcr'⟩

theorem cleanMatchedRow_eq {r : MergedRow} {c : CMRow} (h : cleanMatchedRow r = some c) :
    ∃ s p, r.school = some s ∧ r.pop = some p
      ∧ c.Division = s.Division
      ∧ c.School_Count = s.School_Count
      ∧ c.Total_Enrollment = s.Total_Enrollment
      ∧ clean_numeric p.total = some c.Total_Pop
      ∧ clean_numeric p.atSchool = some c.At_School
      ∧ clean_numeric p.leftAfter = some c.Left_After
      ∧ clean_numeric p.leftBefore = some c.Left_Before
      ∧ clean_numeric p.neverBeen = some c.Never_Been
      ∧ c.Completed_Rate = c.Left_After / c.Total_Pop * 100 := by
  cases hs : r.school with
  | none => cases hp : r.pop <;> simp [cleanMatchedRow, hs, hp] at h
  | some s =>
    cases hp : r.pop with
    | none => simp [cleanMatchedRow, hs, hp] at h
    | some p =>
      simp only [cleanMatchedRow, hs, hp] at h
      cases h1 : clean_numeric p.total with
      | none => rw [h1] at h; simp at h
      | some tot =>
        rw [h1] at h
        cases h2 : clean_numeric p.atSchool with
        | none => rw [h2] at h; simp at h
        | some atS =>
          rw [h2] at h
          cases h3 : clean_numeric p.leftAfter with
          | none => rw [h3] at h; simp at h
          | some lA =>
            rw [h3] at h
            cases h4 : clean_numeric p.leftBefore with
            | none => rw [h4] at h; simp at h
            | some lB =>
              rw [h4] at h
              cases h5 : clean_numeric p.neverBeen with
              | none => rw [h5] at h; simp [Option.map_none'] at h
              | some nB =>
                rw [h5] at h
                simp only [Option.some_bind, Option.map_some', Option.some.injEq] at h
                subst h
                exact ⟨s, p, rfl, rfl, rfl, rfl, rfl, h1, h2, h3, h4, h5, rfl⟩

/-- Claim C5: on matched rows the pipeline strips thousands-separators and
casts to float first, then computes completion rate, schools-per-10k and
students-per-school by the stated formulas. -/
theorem metric_derivation_formulas (merged_df : List MergedRow) (out : List CMRow)
    (h : calculate_completion_metrics merged_df = some out) :
    (∀ c ∈ out, ∃ r ∈ merged_df, r.tag = MergeTag.both ∧
      ∃ s p, r.school = some s ∧ r.pop = some p
        ∧ c.Division = s.Division ∧ c.School_Count = s.School_Count
        ∧ c.Total_Enrollment = s.Total_Enrollment
        ∧ clean_numeric p.total = some c.Total_Pop
        ∧ clean_numeric p.leftAfter = some c.Left_After
        ∧ c.Completed_Rate = c.Left_After / c.Total_Pop * 100)
    ∧ (∀ pc ∈ create_schools_per_capita_metrics out, ∃ c ∈ out,
        pc.Schools_per_10k = (c.School_Count : ℚ) / c.Total_Pop * 10000
        ∧ pc.Students_per_School = c.Total_Enrollment / (c.School_Count : ℚ)
        ∧ pc.Completed_Rate = c.Left_After / c.Total_Pop * 100)
    ∧ (∀ s : String, clean_numeric (Cell.str s) = castFloat (stripCommas s)) := by
  refine ⟨?_, ?_, fun s => rfl⟩
  · intro c hc
    obtain ⟨r, hrf, hcr⟩ := cleanRows_mem h c hc
    have hrm := List.mem_filter.mp hrf
    obtain ⟨s, p, hs, hp, h1, h2, h3, h4, _, h5, _, _, h6⟩ := cleanMatchedRow_eq hcr
    exact ⟨r, hrm.1, by simpa using hrm.2, s, p, hs, hp, h1, h2, h3, h4, h5, h6⟩
  · intro pc hpc
    obtain ⟨c, hc, rfl⟩ := List.mem_map.mp hpc
    exact ⟨c, hc, rfl, rfl, rfl⟩

/-- Matched school-stats row for the concrete metric-derivation check. -/
def exStatsW : SchoolStats :=
  { Division := "KIBRA"
    School_Count := 10
    Total_Enrollment := 4000
    Total_Boys := 2000
    Total_Girls := 2000
    Total_Classrooms := 100
    Total_Teachers := 50
    Latitude := 1
    Longitude := 36 }

/-- Matched population row (numeric cells) for the concrete
metric-derivation check. -/
def exPopW : PopRow :=
  { subcounty := "KIBRA"
    total := Cell.num 1000
    atSchool := Cell.num 800
    leftAfter := Cell.num 400
    leftBefore := Cell.num 100
    neverBeen := Cell.num 50 }

/-- A one-row merged frame for the concrete metric-derivation check. -/
def exMergedW : List MergedRow :=
  [{ school := some exStatsW, pop := some exPopW, tag := MergeTag.both }]

/-- The cleaned metrics frame the pipeline produces on `exMergedW`. -/
def exOutW : List CMRow :=
  [{ Division := "KIBRA"
     School_Count := 10
     Total_Enrollment := 4000
     Total_Pop := 1000
     At_School := 800
     Left_After := 400
     Left_Before := 100
     Never_Been := 50
     Completed_Rate := 40 }]

theorem metric_derivation_formulas_witness :
    calculate_completion_metrics exMergedW = some exOutW
    ∧ (∀ s : String, clean_numeric (Cell.str s) = castFloat (stripCommas s)) := by
  have hEq : calculate_completion_metrics exMergedW = some exOutW := by
    simp only [calculate_completion_metrics, exMergedW, exStatsW, exPopW, exOutW,
      List.filter, cleanRows, cleanMatchedRow, clean_numeric]
    norm_num
  exact ⟨hEq, (metric_derivation_formulas exMergedW exOutW hEq).2.2⟩

/-- A matched merged row whose cleaned total population is zero, witnessing
that the division by zero is reachable. -/
def zeroPopRow : MergedRow :=
  { school := some exStatsW
    pop := some
      { subcounty := "KIBRA"
        total := Cell.num 0
        atSchool := Cell.num 800
        leftAfter := Cell.num 400
        leftBefore := Cell.num 100
        neverBeen := Cell.num 50 }
    tag := MergeTag.both }

/-- Claim C6: the metric derivation has no guard, error path or smoothing for
zero denominators: a zero-population matched row still produces a metrics row,
the completion-rate division is applied unconditionally, and on rows with zero
population or zero school count the per-capita formulas are the raw divisions
by zero. -/
theorem metric_derivation_no_zero_guard :
    ((cleanMatchedRow zeroPopRow).isSome = true)
    ∧ (∀ (r : MergedRow) (c : CMRow), cleanMatchedRow r = some c →
        c.Completed_Rate = c.Left_After / c.Total_Pop * 100)
    ∧ (∀ (r : MergedRow) (c : CMRow), cleanMatchedRow r = some c → c.Total_Pop = 0 →
        c.Completed_Rate = c.Left_After / 0 * 100)
    ∧ (∀ c : CMRow, c.Total_Pop = 0 →
        (create_schools_per_capita_metrics [c]).head? = some
          { Division := c.Division
            Total_Pop := 0
            Schools_per_10k := (c.School_Count : ℚ) / 0 * 10000
            Students_per_School := c.Total_Enrollment / (c.School_Count : ℚ)
            Completed_Rate := c.Left_After / 0 * 100 })
    ∧ (∀ c : CMRow, c.School_Count = 0 →
        (create_schools_per_capita_metrics [c]).head? = some
          { Division := c.Division
            Total_Pop := c.Total_Pop
            Schools_per_10k := (0 : ℚ) / c.Total_Pop * 10000
            Students_per_School := c.Total_Enrollment / (0 : ℚ)
            Completed_Rate := c.Left_After / c.Total_Pop * 100 }) := by
  have hrate : ∀ (r : MergedRow) (c : CMRow), cleanMatchedRow r = some c →
      c.Completed_Rate = c.Left_After / c.Total_Pop * 100 := by
    intro r c h
    obtain ⟨_, _, _, _, _, _, _, _, _, _, _, _, hr⟩ := cleanMatchedRow_eq h
    exact hr
  refine ⟨rfl, hrate, ?_, ?_, ?_⟩
  · intro r c h h0
    rw [hrate r c h, h0]
  · intro c h0
    simp [create_schools_per_capita_metrics, h0]
  · intro c h0
    simp [create_schools_per_capita_metrics, h0]

theorem le_foldr_max (l : List Nat) : ∀ x ∈ l, x ≤ l.foldr max 0 := by
  induction l with
  | nil => intro x hx; simp at hx
  | cons a t ih =>
    intro x hx
    rcases List.mem_cons.mp hx with rfl | hxt
    · exact Nat.le_max_left _ _
    · exact Nat.le_trans (ih x hxt) (Nat.le_max_right _ _)

theorem alloc_not_mem (σ : Store) : alloc σ ∉ σ.map Prod.fst := by
  intro h
  have := le_foldr_max (σ.map Prod.fst) _ h
  simp only [alloc] at this
  omega

theorem storeGet_cons_ne (σ : Store) (r k : Nat) (t : SchoolTable) (h : k ≠ r) :
    storeGet ((r, t) :: σ) k = storeGet σ k := by
  have hb : (r == k) = false := beq_eq_false_iff_ne.mpr (Ne.symm h)
  simp [storeGet, List.find?, hb]

theorem storeGet_storeSet_ne (σ : Store) (r k : Nat) (t : SchoolTable) (h : k ≠ r) :
    storeGet (storeSet σ r t) k = storeGet σ k := by
  induction σ with
  | nil => rfl
  | cons p σ ih =>
    by_cases hp : p.1 = r
    · have hb : (p.1 == r) = true := beq_iff_eq.mpr hp
      have hbk : (r == k) = false := beq_eq_false_iff_ne.mpr (Ne.symm h)
      have hbk2 : (p.1 == k) = false := beq_eq_false_iff_ne.mpr (hp ▸ (Ne.symm h))
      simp [storeSet, storeGet, List.find?, hb, hbk, hbk2] at ih ⊢
      exact ih
    · have hb : (p.1 == r) = false := beq_eq_false_iff_ne.mpr hp
      by_cases hk : p.1 = k
      · have hbk : (p.1 == k) = true := beq_iff_eq.mpr hk
        simp [storeSet, storeGet, List.find?, hb, hbk]
      · have hbk : (p.1 == k) = false := beq_eq_false_iff_ne.mpr hk
        simp [storeSet, storeGet, List.find?, hb, hbk] at ih ⊢
        exact ih

/-- Claim C10: `merge_schools_population` mutates only the fresh copy it
makes of the school frame: every reference bound before the call is bound to
an unchanged table afterwards, and the returned frame equals the pure merge
of the unchanged inputs. -/
theorem merge_preserves_inputs (σ : Store) (schoolRef : Nat) (pop_df : List PopRow) :
    (∀ ref ∈ σ.map Prod.fst,
      storeGet (merge_schools_population_st σ schoolRef pop_df).1 ref = storeGet σ ref)
    ∧ (∀ t : SchoolTable, storeGet σ schoolRef = some t →
      (merge_schools_population_st σ schoolRef pop_df).2
        = merge_schools_population t.rows pop_df) := by
  constructor
  · intro ref href
    cases h : storeGet σ schoolRef with
    | none => rw [merge_schools_population_st, h]
    | some t =>
      rw [merge_schools_population_st, h]
      have hne : ref ≠ alloc σ := fun he => alloc_not_mem σ (he ▸ href)
      rw [storeGet_storeSet_ne _ _ _ _ hne, storeGet_cons_ne _ _ _ _ hne]
  · intro t ht
    have hgetD : storeGetD ((alloc σ, t) :: σ) (alloc σ) = t := by
      simp [storeGetD, storeGet, List.find?]
    have hself : storeGet (storeSet ((alloc σ, t) :: σ) (alloc σ) (addNormCol t)) (alloc σ)
        = some (addNormCol t) := by
      simp [storeSet, storeGet, List.find?]
    rw [merge_schools_population_st, ht]
    simp only [hgetD]
    rw [merge_schools_population]
    simp only [storeGetD, hself, Option.getD_some]
    rfl
